import Mathlib

/-!
Shallow embedding of the caddy-i18n-template-ext resolver (src/i18n.go).

The translation dictionary `map[string]map[string]string` is embedded as an
association list; Go map reads `m[k]` become `List.lookup k m`.  The variadic
`[]interface{}` argument list is embedded as `List Arg`, where a non-string
value carries its `fmt.Sprint` rendering.  The regex scan for tokens of the
shape "opening brace, one or more decimal digits, closing brace" with
`ReplaceAllStringFunc` is embedded as a left-to-right character scanner that,
at each position, matches such a token, replaces it via the callback and
resumes after it, and otherwise advances one character — exactly the
leftmost, non-overlapping match discipline of the Go regexp engine on this
pattern.  `strconv.Atoi`, called only on nonempty digit runs, is embedded as
decimal evaluation failing above the 64-bit signed integer maximum.
File-system and JSON-decoder outcomes inside `loadDictionary` are oracle
inputs (`OpenResult`); the branching on them is from the source.
-/

/-- `map[translationKey]map[languageCode]translatedText`, as in `I18n.translations`. -/
abbrev Translations := List (String × List (String × String))

/-- The `I18n` receiver struct: the fields the resolver reads (the mutex and
the logger do not influence any returned value). -/
structure I18n where
  dictFile : String
  translations : Translations
deriving DecidableEq, Repr

/-- One element of the `args ...interface{}` list of `i18nTranslate`:
either a Go `string`, or any other value carried by its `fmt.Sprint`
rendering (the only way the source consumes a non-string argument). -/
inductive Arg where
  | str (s : String)
  | other (rendered : String)
deriving DecidableEq, Repr

/-- Decimal value of a digit run, as `strconv.Atoi` computes it. -/
def digitsToNat (ds : List Char) : Nat :=
  ds.foldl (fun n c => 10 * n + (c.toNat - 48)) 0

/-- `strconv.Atoi` on a nonempty decimal-digit string (the only shape the
regex hands it): the value on success, `none` when it exceeds the 64-bit
platform `int` maximum `2^63 - 1` (Go reports `ErrRange`). -/
def atoiDigits (ds : List Char) : Option Nat :=
  if digitsToNat ds < 2 ^ 63 then some (digitsToNat ds) else none

/-- The callback of `ReplaceAllStringFunc` (src/i18n.go lines 197-231),
given the digit run `ds` of the matched token (the match text is an opening
brace, then `ds`, then a closing brace, so trimming the braces off the
match yields exactly `ds`).  Returns the replacement characters; the
untouched-token branches return the match text itself.  `strings.HasPrefix`
and `strings.TrimPrefix` against `"i18n:"` become the prefix test and the
removal of the five prefix characters. -/
def replaceMatch (trans : Translations) (lang : String) (args : List Arg)
    (ds : List Char) : List Char :=
  match atoiDigits ds with
  | none => '{' :: (ds ++ ['}'])
  | some idx =>
    if h : idx < args.length then
      match args[idx] with
      | Arg.str s =>
        if List.isPrefixOf ("i18n:".data) s.data then
          match List.lookup (String.mk (s.data.drop 5)) trans with
          | some entry =>
            match List.lookup lang entry with
            | some val => val.data
            | none =>
              match List.lookup "en" entry with
              | some val => val.data
              | none => s.data.drop 5
          | none => s.data.drop 5
        else s.data
      | Arg.other rendered => rendered.data
    else '{' :: (ds ++ ['}'])

/-- Does a token of the pattern — an opening brace, then one or more
decimal digits, then a closing brace — match at the head of `l`?  Returns
the digit run and the remainder after the closing brace. -/
def matchPlaceholder (l : List Char) : Option (List Char × List Char) :=
  match l with
  | [] => none
  | c :: rest =>
    if c = '{' then
      match rest.dropWhile Char.isDigit with
      | [] => none
      | d :: rest3 =>
        if d = '}' then
          if (rest.takeWhile Char.isDigit).isEmpty then none
          else some (rest.takeWhile Char.isDigit, rest3)
        else none
    else none

/-- The single left-to-right scan of `ReplaceAllStringFunc`: replace each
token at its match position and continue after it, otherwise copy one
character.  `fuel` bounds the recursion; it is always supplied as the
length of the scanned list, which suffices because every step consumes at
least one character. -/
def interpAuxF (repl : List Char → List Char) : Nat → List Char → List Char
  | 0, l => l
  | fuel + 1, l =>
    match matchPlaceholder l with
    | some (ds, rest3) => repl ds ++ interpAuxF repl fuel rest3
    | none =>
      match l with
      | [] => []
      | c :: rest => c :: interpAuxF repl fuel rest

/-- The scan at its canonical fuel. -/
def interpAuxL (repl : List Char → List Char) (l : List Char) : List Char :=
  interpAuxF repl l.length l

/-- `interpolateTranslations` (src/i18n.go lines 193-235): replace the
positional tokens of `tmpl` using `args`, resolving arguments that carry
the `"i18n:"` marker against `trans` under `lang`. -/
def interpolateTranslations (trans : Translations) (tmpl : String) (lang : String)
    (args : List Arg) : String :=
  String.mk (interpAuxL (replaceMatch trans lang args) tmpl.data)

/-- The `i18nTranslate` closure (src/i18n.go lines 131-176), embedded as a
state transformer on the receiver: the pair carries the Go return values
`(string, error)` — the error component is the second projection — and the
receiver state after the call.  Every return site passes the receiver
through unchanged, as the source performs no write under its read lock. -/
def i18nTranslateCall (st : I18n) (key lang : String) (args : List Arg) :
    (String × Option String) × I18n :=
  match List.lookup key st.translations with
  | none => ((key, none), st)
  | some entry =>
    match List.lookup lang entry with
    | some val =>
      ((if 0 < args.length then
          interpolateTranslations st.translations val lang args
        else val, none), st)
    | none =>
      match List.lookup "en" entry with
      | none => ((key, none), st)
      | some val =>
        ((if 0 < args.length then
            interpolateTranslations st.translations val lang args
          else val, none), st)

/-- The `(string, error)` value `i18nTranslate` returns. -/
def i18nTranslate (st : I18n) (key lang : String) (args : List Arg) :
    String × Option String :=
  (i18nTranslateCall st key lang args).1

/-- Resolution as the spec states it (sections 4.2 and 8), for comparison
with the source-derived resolver: the stored text for `(key, lang)` when
both are present, else the stored text for `(key, "en")`, else `key`. -/
def specResolve (d : Translations) (key lang : String) : String :=
  match List.lookup key d with
  | none => key
  | some entry =>
    match List.lookup lang entry with
    | some t => t
    | none =>
      match List.lookup "en" entry with
      | some t => t
      | none => key

/-- Does any position of `l` start a placeholder token (an opening brace,
one or more decimal digits, a closing brace)? -/
def hasPlaceholderAux : List Char → Bool
  | [] => false
  | c :: rest => (matchPlaceholder (c :: rest)).isSome || hasPlaceholderAux rest

/-- Does the string contain a placeholder token anywhere? -/
def hasPlaceholder (s : String) : Bool :=
  hasPlaceholderAux s.data

/-- Outcome of `os.Open` followed by `json.Decoder.Decode` in
`loadDictionary`, as an oracle input: the file opens and the document
decodes into the two-level shape `d`; the file opens but the document is
malformed for that shape; the path does not exist (`fs.ErrNotExist`); or
any other I/O error. -/
inductive OpenResult where
  | ok (d : Translations)
  | malformed (msg : String)
  | notExist
  | otherErr (e : String)
deriving DecidableEq, Repr

/-- The error classes `loadDictionary` can return. -/
inductive LoadError where
  | notFound (path : String)
  | readError (e : String)
  | parseError (msg : String)
deriving DecidableEq, Repr

/-- `loadDictionary` (src/i18n.go lines 240-257): classify the open error
(`fs.ErrNotExist` becomes the not-found message, anything else is returned
as-is), classify a decode failure as a parse error, and otherwise install
the decoded dictionary. -/
def loadDictionary (dictFile : String) (res : OpenResult) :
    Except LoadError Translations :=
  match res with
  | OpenResult.notExist => Except.error (LoadError.notFound dictFile)
  | OpenResult.otherErr e => Except.error (LoadError.readError e)
  | OpenResult.malformed msg => Except.error (LoadError.parseError msg)
  | OpenResult.ok d => Except.ok d

/-- `Provision` (src/i18n.go lines 87-106): start from an empty dictionary
and load the configured file when a path is set. -/
def Provision (dictFile : String) (res : OpenResult) : Except LoadError I18n :=
  if dictFile = "" then Except.ok ⟨dictFile, []⟩
  else
    match loadDictionary dictFile res with
    | Except.error e => Except.error e
    | Except.ok d => Except.ok ⟨dictFile, d⟩

-- Helper lemmas --------------------------------------------------------------

theorem dropWhile_le_length (p : Char → Bool) (l : List Char) :
    (l.dropWhile p).length ≤ l.length := by
  induction l with
  | nil => simp [List.dropWhile]
  | cons c rest ih =>
    simp only [List.dropWhile]
    cases p c
    · simp
    · simp only [List.length_cons]
      omega

theorem takeWhile_append_stop {p : Char → Bool} {ds : List Char} {x : Char}
    (rest : List Char) (h1 : ∀ c ∈ ds, p c = true) (h2 : p x = false) :
    (ds ++ x :: rest).takeWhile p = ds := by
  induction ds with
  | nil => simp [List.takeWhile, h2]
  | cons d ds ih =>
    have hd : p d = true := h1 d (by simp)
    simp only [List.cons_append, List.takeWhile, hd]
    simp only [List.cons.injEq, true_and]
    exact ih fun c hc => h1 c (by simp [hc])

theorem dropWhile_append_stop {p : Char → Bool} {ds : List Char} {x : Char}
    (rest : List Char) (h1 : ∀ c ∈ ds, p c = true) (h2 : p x = false) :
    (ds ++ x :: rest).dropWhile p = x :: rest := by
  induction ds with
  | nil => simp [List.dropWhile, h2]
  | cons d ds ih =>
    have hd : p d = true := h1 d (by simp)
    simp only [List.cons_append, List.dropWhile, hd]
    exact ih fun c hc => h1 c (by simp [hc])

theorem matchPlaceholder_length {l ds rest3 : List Char}
    (h : matchPlaceholder l = some (ds, rest3)) : rest3.length < l.length := by
  unfold matchPlaceholder at h
  split at h
  · exact absurd h (by simp)
  · rename_i c rest
    split at h
    · split at h
      · exact absurd h (by simp)
      · rename_i d rest3' hdrop
        split at h
        · split at h
          · exact absurd h (by simp)
          · simp only [Option.some.injEq, Prod.mk.injEq] at h
            obtain ⟨-, h2⟩ := h
            subst h2
            have hle := dropWhile_le_length Char.isDigit rest
            rw [hdrop] at hle
            simp only [List.length_cons] at hle ⊢
            omega
        · exact absurd h (by simp)
    · exact absurd h (by simp)

theorem interpAuxF_fuel (repl : List Char → List Char) :
    ∀ f1 : Nat, ∀ f2 : Nat, ∀ l : List Char,
      l.length ≤ f1 → l.length ≤ f2 →
      interpAuxF repl f1 l = interpAuxF repl f2 l := by
  intro f1
  induction f1 with
  | zero =>
    intro f2 l h1 _
    have : l = [] := List.length_eq_zero.mp (Nat.le_zero.mp h1)
    subst this
    cases f2 with
    | zero => rfl
    | succ k => simp [interpAuxF, matchPlaceholder]
  | succ f1 ih =>
    intro f2 l h1 h2
    cases l with
    | nil =>
      cases f2 with
      | zero => simp [interpAuxF, matchPlaceholder]
      | succ k => simp [interpAuxF, matchPlaceholder]
    | cons c rest =>
      cases f2 with
      | zero => simp at h2
      | succ k =>
        simp only [interpAuxF]
        cases hm : matchPlaceholder (c :: rest) with
        | some pr =>
          obtain ⟨ds, rest3⟩ := pr
          have hlen := matchPlaceholder_length hm
          simp only [List.length_cons] at hlen h1 h2
          show repl ds ++ interpAuxF repl f1 rest3 = repl ds ++ interpAuxF repl k rest3
          rw [ih k rest3 (by omega) (by omega)]
        | none =>
          simp only [List.length_cons] at h1 h2
          show c :: interpAuxF repl f1 rest = c :: interpAuxF repl k rest
          rw [ih k rest (by omega) (by omega)]

theorem interpAuxL_cons_nomatch (repl : List Char → List Char) (c : Char)
    (rest : List Char) (h : matchPlaceholder (c :: rest) = none) :
    interpAuxL repl (c :: rest) = c :: interpAuxL repl rest := by
  unfold interpAuxL
  simp only [List.length_cons, interpAuxF, h]

theorem interpAuxL_match (repl : List Char → List Char) (l ds rest3 : List Char)
    (h : matchPlaceholder l = some (ds, rest3)) :
    interpAuxL repl l = repl ds ++ interpAuxL repl rest3 := by
  have hlen := matchPlaceholder_length h
  cases l with
  | nil => simp [matchPlaceholder] at h
  | cons c rest =>
    unfold interpAuxL
    simp only [List.length_cons, interpAuxF, h]
    have := interpAuxF_fuel repl rest.length rest3.length rest3
      (by simp only [List.length_cons] at hlen; omega) (le_refl _)
    rw [this]

theorem interpAuxL_no_placeholder (repl : List Char → List Char) :
    ∀ l : List Char, hasPlaceholderAux l = false → interpAuxL repl l = l := by
  intro l
  induction l with
  | nil =>
    intro _
    rfl
  | cons c rest ih =>
    intro h
    unfold hasPlaceholderAux at h
    rw [Bool.or_eq_false_iff] at h
    obtain ⟨hm, hrest⟩ := h
    cases hmp : matchPlaceholder (c :: rest) with
    | some pr =>
      rw [hmp] at hm
      simp at hm
    | none =>
      rw [interpAuxL_cons_nomatch repl c rest hmp, ih hrest]

-- Claim theorems -------------------------------------------------------------

/-- Claim C1: with no arguments supplied, `i18nTranslate` returns exactly the
stored text for `(key, lang)` when both are present, otherwise the stored
text for `(key, "en")` when present, otherwise the key itself (also for the
empty key and for a present key with neither entry), and a nil error
component — the spec-level resolution function, with no error, on every
dictionary, key and language. -/
theorem translate_noargs_matches_spec (st : I18n) (key lang : String) :
    i18nTranslate st key lang [] = (specResolve st.translations key lang, none) := by
  unfold i18nTranslate i18nTranslateCall specResolve
  rcases List.lookup key st.translations with _ | entry
  · rfl
  · dsimp only
    rcases List.lookup lang entry with _ | val
    · dsimp only
      rcases List.lookup "en" entry with _ | val
      · rfl
      · rfl
    · rfl

/-- Claim C2: an in-bounds token whose argument is a string carrying the
`"i18n:"` marker is replaced by resolving the stripped nested key with the
spec's fallback rule (requested language, then `"en"`, then the stripped key
literal, also when the nested key is absent); and the top level hands the
originally requested language to interpolation even when the chosen text
itself came from the `"en"` fallback. -/
theorem nested_arg_resolved_under_requested_lang :
    (∀ (trans : Translations) (lang : String) (args : List Arg)
       (ds : List Char) (idx : Nat) (s : String),
       atoiDigits ds = some idx →
       args[idx]? = some (Arg.str s) →
       List.isPrefixOf ("i18n:".data) s.data = true →
       replaceMatch trans lang args ds =
         (specResolve trans (String.mk (s.data.drop 5)) lang).data)
    ∧ (∀ (st : I18n) (key lang : String) (args : List Arg)
         (entry : List (String × String)) (val : String),
         List.lookup key st.translations = some entry →
         List.lookup lang entry = none →
         List.lookup "en" entry = some val →
         0 < args.length →
         i18nTranslate st key lang args =
           (interpolateTranslations st.translations val lang args, none)) := by
  constructor
  · intro trans lang args ds idx s h1 h2 h3
    obtain ⟨hlt, hget⟩ := List.getElem?_eq_some.mp h2
    unfold replaceMatch
    rw [h1]
    dsimp only
    rw [dif_pos hlt, hget]
    dsimp only
    rw [if_pos h3]
    unfold specResolve
    rcases List.lookup (String.mk (s.data.drop 5)) trans with _ | entry
    · rfl
    · dsimp only
      rcases List.lookup lang entry with _ | v
      · dsimp only
        rcases List.lookup "en" entry with _ | v
        · rfl
        · rfl
      · rfl
  · intro st key lang args entry val h1 h2 h3 h4
    unfold i18nTranslate i18nTranslateCall
    rw [h1]
    dsimp only
    rw [h2]
    dsimp only
    rw [h3]
    dsimp only
    rw [if_pos h4]

/-- Claim C3: interpolation is a single pass — a matched token is replaced
by the callback's output verbatim and scanning resumes after the token on
the original template, so replacement text is never re-scanned; on a cyclic
dictionary, a nested value containing a token reaches the output with that
token literal, giving expansion depth exactly one. -/
theorem interpolation_single_pass :
    (∀ (repl : List Char → List Char) (ds rest : List Char),
       ds ≠ [] → ds.all Char.isDigit = true →
       interpAuxL repl ('{' :: (ds ++ '}' :: rest)) =
         repl ds ++ interpAuxL repl rest)
    ∧ interpolateTranslations [("loop", [("en", "see {0} again")])]
        "{0}" "en" [Arg.str "i18n:loop"] = "see {0} again" := by
  constructor
  · intro repl ds rest hne hall
    have hall' : ∀ c ∈ ds, Char.isDigit c = true := by
      intro c hc
      exact List.all_eq_true.mp hall c hc
    have hde : ds.isEmpty = false := by
      cases ds with
      | nil => exact absurd rfl hne
      | cons a as => rfl
    have hmatch : matchPlaceholder ('{' :: (ds ++ '}' :: rest)) = some (ds, rest) := by
      unfold matchPlaceholder
      dsimp only
      rw [if_pos rfl, dropWhile_append_stop rest hall' (by decide)]
      dsimp only
      rw [if_pos rfl, takeWhile_append_stop rest hall' (by decide), hde]
      simp
    exact interpAuxL_match repl _ ds rest hmatch
  · decide

/-- Claim C4: a token whose parsed index is at or beyond the end of the
argument list is returned as the literal match text, with no substitution
and no error; the spec's example with one argument leaves the second token
in place. -/
theorem out_of_range_token_unchanged :
    (∀ (trans : Translations) (lang : String) (args : List Arg)
       (ds : List Char) (idx : Nat),
       atoiDigits ds = some idx → args.length ≤ idx →
       replaceMatch trans lang args ds = '{' :: (ds ++ ['}']))
    ∧ interpolateTranslations [] "Value: {0} and {5}" "en" [Arg.str "hello"] =
        "Value: hello and {5}" := by
  constructor
  · intro trans lang args ds idx h1 h2
    unfold replaceMatch
    rw [h1]
    dsimp only
    rw [dif_neg (by omega : ¬ idx < args.length)]
  · decide

/-- Claim C5: `i18nTranslate` is total and its error component is nil on
every dictionary state, key, language and argument list — no error reaches
the caller from resolution, fallback or interpolation. -/
theorem translate_error_always_nil (st : I18n) (key lang : String)
    (args : List Arg) : (i18nTranslate st key lang args).2 = none := by
  unfold i18nTranslate i18nTranslateCall
  rcases List.lookup key st.translations with _ | entry
  · rfl
  · dsimp only
    rcases List.lookup lang entry with _ | val
    · dsimp only
      rcases List.lookup "en" entry with _ | val
      · rfl
      · rfl
    · rfl

/-- Claim C6: loading yields the not-found error exactly when the source
does not exist, the parse error exactly on a malformed document, the read
error exactly on any other I/O failure, and an empty well-formed document
is a success producing a dictionary with zero keys. -/
theorem load_error_classes (dictFile : String) (res : OpenResult) :
    ((∃ p, loadDictionary dictFile res = Except.error (LoadError.notFound p)) ↔
      res = OpenResult.notExist)
    ∧ ((∃ m, loadDictionary dictFile res = Except.error (LoadError.parseError m)) ↔
        ∃ m, res = OpenResult.malformed m)
    ∧ ((∃ e, loadDictionary dictFile res = Except.error (LoadError.readError e)) ↔
        ∃ e, res = OpenResult.otherErr e)
    ∧ loadDictionary dictFile (OpenResult.ok []) = Except.ok []
    ∧ (∀ d, res = OpenResult.ok d →
        loadDictionary dictFile res = Except.ok d) := by
  refine ⟨?_, ?_, ?_, rfl, ?_⟩
  · constructor
    · rintro ⟨p, hp⟩
      cases res
      · simp [loadDictionary] at hp
      · simp [loadDictionary] at hp
      · rfl
      · simp [loadDictionary] at hp
    · intro h
      subst h
      exact ⟨dictFile, rfl⟩
  · constructor
    · rintro ⟨m, hm⟩
      cases res
      · simp [loadDictionary] at hm
      · rename_i msg
        exact ⟨msg, rfl⟩
      · simp [loadDictionary] at hm
      · simp [loadDictionary] at hm
    · rintro ⟨m, hm⟩
      subst hm
      exact ⟨m, rfl⟩
  · constructor
    · rintro ⟨e, he⟩
      cases res
      · simp [loadDictionary] at he
      · simp [loadDictionary] at he
      · simp [loadDictionary] at he
      · rename_i err
        exact ⟨err, rfl⟩
    · rintro ⟨e, he⟩
      subst he
      exact ⟨e, rfl⟩
  · intro d hd
    subst hd
    rfl

/-- Claim C7: when the chosen stored text contains no placeholder token, the
result equals that text exactly whatever the arguments are; and with no
arguments the chosen text is returned unchanged. -/
theorem no_placeholder_text_unchanged (st : I18n) (key lang : String)
    (args : List Arg) (entry : List (String × String)) (val : String)
    (h1 : List.lookup key st.translations = some entry)
    (h2 : List.lookup lang entry = some val ∨
      (List.lookup lang entry = none ∧ List.lookup "en" entry = some val)) :
    (hasPlaceholder val = false → i18nTranslate st key lang args = (val, none))
    ∧ (args = [] → i18nTranslate st key lang args = (val, none)) := by
  have hinterp : hasPlaceholder val = false →
      interpolateTranslations st.translations val lang args = val := by
    intro hval
    unfold interpolateTranslations
    rw [interpAuxL_no_placeholder _ _ hval]
  unfold i18nTranslate i18nTranslateCall
  rw [h1]
  dsimp only
  rcases h2 with hlang | ⟨hlang, hen⟩
  · rw [hlang]
    dsimp only
    constructor
    · intro hval
      by_cases hlen : 0 < args.length
      · rw [if_pos hlen, hinterp hval]
      · rw [if_neg hlen]
    · intro hargs
      subst hargs
      rfl
  · rw [hlang]
    dsimp only
    rw [hen]
    dsimp only
    constructor
    · intro hval
      by_cases hlen : 0 < args.length
      · rw [if_pos hlen, hinterp hval]
      · rw [if_neg hlen]
    · intro hargs
      subst hargs
      rfl

/-- Claim C8: a translate call is a pure read: the receiver it passes back,
and in particular its whole translations map, is exactly the receiver it
was given, for every dictionary state, key, language and argument list. -/
theorem translate_preserves_translations (st : I18n) (key lang : String)
    (args : List Arg) :
    ((i18nTranslateCall st key lang args).2).translations = st.translations
    ∧ (i18nTranslateCall st key lang args).2 = st := by
  have h : (i18nTranslateCall st key lang args).2 = st := by
    unfold i18nTranslateCall
    rcases List.lookup key st.translations with _ | entry
    · rfl
    · dsimp only
      rcases List.lookup lang entry with _ | val
      · dsimp only
        rcases List.lookup "en" entry with _ | val
        · rfl
        · rfl
      · rfl
  exact ⟨by rw [h], h⟩

/-- Claim C9: a token whose digit run does not fit the 64-bit platform
integer is left as the literal match text, like an out-of-range index, and
the parse-failure branch is a total function returning a string — never a
panic or an error. -/
theorem huge_index_token_unchanged :
    (∀ (trans : Translations) (lang : String) (args : List Arg)
       (ds : List Char), 2 ^ 63 ≤ digitsToNat ds →
       replaceMatch trans lang args ds = '{' :: (ds ++ ['}']))
    ∧ interpolateTranslations [] "x{99999999999999999999}y" "en" [Arg.str "a"] =
        "x{99999999999999999999}y" := by
  constructor
  · intro trans lang args ds h
    have hnone : atoiDigits ds = none := by
      unfold atoiDigits
      rw [if_neg (Nat.not_lt.mpr h)]
    unfold replaceMatch
    rw [hnone]
  · decide

/-- Claim C10: a string argument without the `"i18n:"` marker is inserted
verbatim (so tokens inside it stay literal and are never substituted), a
non-string argument is inserted as its rendering without further
processing, and a token-bearing argument value reaches the output
unexpanded. -/
theorem plain_arg_inserted_verbatim :
    (∀ (trans : Translations) (lang : String) (args : List Arg)
       (ds : List Char) (idx : Nat) (s : String),
       atoiDigits ds = some idx →
       args[idx]? = some (Arg.str s) →
       List.isPrefixOf ("i18n:".data) s.data = false →
       replaceMatch trans lang args ds = s.data)
    ∧ (∀ (trans : Translations) (lang : String) (args : List Arg)
         (ds : List Char) (idx : Nat) (r : String),
         atoiDigits ds = some idx →
         args[idx]? = some (Arg.other r) →
         replaceMatch trans lang args ds = r.data)
    ∧ interpolateTranslations [] "{0}" "en" [Arg.str "{1}", Arg.str "no"] =
        "{1}" := by
  refine ⟨?_, ?_, by decide⟩
  · intro trans lang args ds idx s h1 h2 h3
    obtain ⟨hlt, hget⟩ := List.getElem?_eq_some.mp h2
    unfold replaceMatch
    rw [h1]
    dsimp only
    rw [dif_pos hlt, hget]
    dsimp only
    rw [if_neg (by simp [h3])]
  · intro trans lang args ds idx r h1 h2
    obtain ⟨hlt, hget⟩ := List.getElem?_eq_some.mp h2
    unfold replaceMatch
    rw [h1]
    dsimp only
    rw [dif_pos hlt, hget]

-- Witnesses ------------------------------------------------------------------

/-- Witness for C2 at a concrete dictionary: the nested argument
`"i18n:account"` resolves under the requested language `"de"`, and the
top level passes `"de"` to interpolation although the chosen text came from
the `"en"` entry. -/
theorem nested_arg_resolved_under_requested_lang_witness :
    replaceMatch [("account", [("de", "Konto"), ("en", "Account")])] "de"
        [Arg.str "i18n:account"] ['0'] =
      (specResolve [("account", [("de", "Konto"), ("en", "Account")])]
        (String.mk ("i18n:account".data.drop 5)) "de").data
    ∧ i18nTranslate ⟨"", [("e", [("en", "hi {0}")])]⟩ "e" "de" [Arg.str "x"] =
        (interpolateTranslations [("e", [("en", "hi {0}")])] "hi {0}" "de"
          [Arg.str "x"], none) :=
  ⟨nested_arg_resolved_under_requested_lang.1
      [("account", [("de", "Konto"), ("en", "Account")])] "de"
      [Arg.str "i18n:account"] ['0'] 0 "i18n:account" (by decide) (by decide)
      (by decide),
    nested_arg_resolved_under_requested_lang.2
      ⟨"", [("e", [("en", "hi {0}")])]⟩ "e" "de" [Arg.str "x"]
      [("en", "hi {0}")] "hi {0}" rfl rfl rfl (by decide)⟩

/-- Witness for C3 at a concrete callback and template. -/
theorem interpolation_single_pass_witness :
    interpAuxL (fun ds => '<' :: ds) ('{' :: (['4'] ++ '}' :: ['a'])) =
      ('<' :: ['4']) ++ interpAuxL (fun ds => '<' :: ds) ['a'] :=
  interpolation_single_pass.1 (fun ds => '<' :: ds) ['4'] ['a']
    (by decide) (by decide)

/-- Witness for C4 at a concrete token and argument list. -/
theorem out_of_range_token_unchanged_witness :
    replaceMatch [] "en" [Arg.str "hello"] ['5'] = '{' :: (['5'] ++ ['}']) :=
  out_of_range_token_unchanged.1 [] "en" [Arg.str "hello"] ['5'] 5
    (by decide) (by decide)

/-- Witness for C6 at concrete oracle outcomes. -/
theorem load_error_classes_witness :
    loadDictionary "t.json" (OpenResult.ok [("k", [("en", "v")])]) =
      Except.ok [("k", [("en", "v")])]
    ∧ loadDictionary "t.json" OpenResult.notExist =
        Except.error (LoadError.notFound "t.json")
    ∧ loadDictionary "t.json" (OpenResult.malformed "bad") =
        Except.error (LoadError.parseError "bad")
    ∧ loadDictionary "t.json" (OpenResult.otherErr "disk") =
        Except.error (LoadError.readError "disk") :=
  ⟨(load_error_classes "t.json" (OpenResult.ok [("k", [("en", "v")])])).2.2.2.2
      [("k", [("en", "v")])] rfl, rfl, rfl, rfl⟩

/-- Witness for C7 at a concrete dictionary: a placeholder-free text passes
through unchanged despite an extra argument, and the no-argument call
returns the stored text. -/
theorem no_placeholder_text_unchanged_witness :
    i18nTranslate ⟨"", [("hello", [("de", "Hallo")])]⟩ "hello" "de"
        [Arg.str "x"] = ("Hallo", none)
    ∧ i18nTranslate ⟨"", [("hello", [("de", "Hallo")])]⟩ "hello" "de" [] =
        ("Hallo", none) :=
  ⟨(no_placeholder_text_unchanged ⟨"", [("hello", [("de", "Hallo")])]⟩
      "hello" "de" [Arg.str "x"] [("de", "Hallo")] "Hallo" rfl
      (Or.inl rfl)).1 (by decide),
    (no_placeholder_text_unchanged ⟨"", [("hello", [("de", "Hallo")])]⟩
      "hello" "de" [] [("de", "Hallo")] "Hallo" rfl (Or.inl rfl)).2 rfl⟩

/-- Witness for C9 at a 20-digit index. -/
theorem huge_index_token_unchanged_witness :
    replaceMatch [] "en" [Arg.str "a"]
        ['9', '9', '9', '9', '9', '9', '9', '9', '9', '9', '9', '9', '9', '9',
          '9', '9', '9', '9', '9', '9'] =
      '{' :: (['9', '9', '9', '9', '9', '9', '9', '9', '9', '9', '9', '9', '9',
        '9', '9', '9', '9', '9', '9', '9'] ++ ['}']) :=
  huge_index_token_unchanged.1 [] "en" [Arg.str "a"] _ (by decide)

/-- Witness for C10 at concrete arguments: a plain string argument holding a
token is inserted verbatim, and a rendered numeric argument is inserted
as-is. -/
theorem plain_arg_inserted_verbatim_witness :
    replaceMatch [] "en" [Arg.str "{1}", Arg.str "no"] ['0'] = ("{1}" : String).data
    ∧ replaceMatch [] "en" [Arg.other "19.99"] ['0'] = ("19.99" : String).data :=
  ⟨plain_arg_inserted_verbatim.1 [] "en" [Arg.str "{1}", Arg.str "no"] ['0'] 0
      "{1}" (by decide) (by decide) (by decide),
    plain_arg_inserted_verbatim.2.1 [] "en" [Arg.other "19.99"] ['0'] 0 "19.99"
      (by decide) (by decide)⟩
